import Mathlib

/-!
Verification of the GolangApp cat-resource HTTP service.

The development shallowly embeds the request handlers of
`allCatsHandlers.go` and `oneCatHandlers.go`, the in-memory store
(`catsDatabase`, a `map[string]Cat`), and the JSON decode/encode boundary
(`encoding/json` at the granularity the handlers use).  The Go handlers
return an `(int, any)` pair; this is modelled as a status code together
with a `Payload`.  The global mutable store is modelled by explicit state
passing.
-/

namespace GolangApp

/-- The record type, from `allCatsHandlers.go`:
`Name`, `ID` (omitempty), `BirthDate` (omitempty), `Color` (omitempty),
all Go strings.  Field order matches the Go struct declaration. -/
structure Cat where
  name : String
  id : String
  birthDate : String
  color : String
deriving Repr, DecidableEq

/-- The Go zero value of the `Cat` struct: every field is the empty string. -/
def Cat.zero : Cat := ⟨"", "", "", ""⟩

/-! ## JSON values

A model of the subset of `encoding/json` exercised by the handlers:
parsing one JSON value from a byte stream (`json.Decoder.Decode`),
unmarshalling it into a `Cat`, and marshalling a `Cat` back to JSON. -/

/-- JSON syntax trees.  Numbers keep their raw token text; the handlers
never use a numeric value (a number can never unmarshal into a string
field). -/
inductive JValue where
  | jnull
  | jbool (b : Bool)
  | jnum (digits : String)
  | jstr (s : String)
  | jarr (elems : List JValue)
  | jobj (members : List (String × JValue))

/-- JSON whitespace, as in Go's scanner (`isSpace`): space, tab, newline,
carriage return. -/
def isWs (c : Char) : Bool :=
  c == ' ' || c == '\t' || c == '\n' || c == '\r'

/-- Skip leading JSON whitespace. -/
def skipWs : List Char → List Char
  | [] => []
  | c :: cs => if isWs c then skipWs cs else c :: cs

/-- Value of one hexadecimal digit, accepting both cases, as Go's `getu4`. -/
def hexDigit? (c : Char) : Option Nat :=
  if '0' ≤ c ∧ c ≤ '9' then some (c.toNat - '0'.toNat)
  else if 'a' ≤ c ∧ c ≤ 'f' then some (c.toNat - 'a'.toNat + 10)
  else if 'A' ≤ c ∧ c ≤ 'F' then some (c.toNat - 'A'.toNat + 10)
  else none

/-- The lowercase hexadecimal digit for `n < 16`, as Go's encoder emits. -/
def hexDig (n : Nat) : Char :=
  if n < 10 then Char.ofNat ('0'.toNat + n) else Char.ofNat ('a'.toNat + n - 10)

/-- The four lowercase hex digits of a code point below 0x10000. -/
def hex4chars (n : Nat) : List Char :=
  [hexDig (n / 4096 % 16), hexDig (n / 256 % 16), hexDig (n / 16 % 16), hexDig (n % 16)]

/-- A scalar value from a decoded `{backslash}u` code point; invalid code
points become U+FFFD (cannot arise for the non-surrogate values below
0x10000 reaching this function). -/
def charOfCode (n : Nat) : Char :=
  if n.isValidChar then Char.ofNat n else '�'

/-- The scalar value encoded by a surrogate pair, as `utf16.DecodeRune`. -/
def combinedRune (hi lo : Nat) : Char :=
  charOfCode (0x10000 + (hi - 0xD800) * 0x400 + (lo - 0xDC00))

/-- Single-character escapes accepted after a backslash
(Go `unquoteBytes`). -/
def escMap? (e : Char) : Option Char :=
  if e = '"' then some '"'
  else if e = '\\' then some '\\'
  else if e = '/' then some '/'
  else if e = 'b' then some '\x08'
  else if e = 'f' then some '\x0c'
  else if e = 'n' then some '\n'
  else if e = 'r' then some '\r'
  else if e = 't' then some '\t'
  else none

/-- Parse the body of a JSON string, the opening quote already consumed.
Returns the decoded characters and the input after the closing quote.
Follows Go `unquoteBytes`: `{backslash}uXXXX` escapes, surrogate pairs
combined, unpaired surrogates replaced by U+FFFD with an unpaired second
escape reprocessed, raw control characters rejected.  The fuel argument
only bounds recursion: every step consumes at least one input character,
so `input.length + 1` fuel is always sufficient (callers pass exactly
that), and the function then behaves as its unfueled counterpart. -/
def parseStringBody : Nat → List Char → Option (List Char × List Char)
  | 0, _ => none
  | _ + 1, [] => none
  | _ + 1, '"' :: rest => some ([], rest)
  | fuel + 1, '\\' :: 'u' :: a :: b :: c :: d :: rest =>
    (match hexDigit? a, hexDigit? b, hexDigit? c, hexDigit? d with
     | some x, some y, some z, some w =>
       let n := ((x * 16 + y) * 16 + z) * 16 + w
       if 0xD800 ≤ n ∧ n ≤ 0xDFFF then
         match rest with
         | '\\' :: 'u' :: a2 :: b2 :: c2 :: d2 :: rest2 =>
           (match hexDigit? a2, hexDigit? b2, hexDigit? c2, hexDigit? d2 with
            | some x2, some y2, some z2, some w2 =>
              let m := ((x2 * 16 + y2) * 16 + z2) * 16 + w2
              if n < 0xDC00 ∧ 0xDC00 ≤ m ∧ m ≤ 0xDFFF then
                (parseStringBody fuel rest2).map (fun p => (combinedRune n m :: p.1, p.2))
              else
                (parseStringBody fuel rest).map (fun p => ('�' :: p.1, p.2))
            | _, _, _, _ =>
              (parseStringBody fuel rest).map (fun p => ('�' :: p.1, p.2)))
         | _ => (parseStringBody fuel rest).map (fun p => ('�' :: p.1, p.2))
       else
         (parseStringBody fuel rest).map (fun p => (charOfCode n :: p.1, p.2))
     | _, _, _, _ => none)
  | fuel + 1, '\\' :: e :: rest =>
    (match escMap? e with
     | some c => (parseStringBody fuel rest).map (fun p => (c :: p.1, p.2))
     | none => none)
  | fuel + 1, c :: rest =>
    if c.toNat < 0x20 then none
    else (parseStringBody fuel rest).map (fun p => (c :: p.1, p.2))

/-- ASCII decimal digit test, as Go's scanner. -/
def isDig (c : Char) : Bool := '0' ≤ c && c ≤ '9'

/-- Parse the optional fraction and exponent of a JSON number starting at
`input`; returns the consumed characters and the rest.  Grammar from Go's
scanner: `('.' digit+)? ([eE] [+-]? digit+)?`. -/
def parseFracExp (input : List Char) : Option (List Char × List Char) :=
  let fr :=
    match input with
    | '.' :: r2 =>
      let (ds, r3) := List.span isDig r2
      if ds = [] then none else some ('.' :: ds, r3)
    | _ => some ([], input)
  match fr with
  | none => none
  | some (fpart, r4) =>
    match r4 with
    | e :: r5 =>
      if e = 'e' ∨ e = 'E' then
        let (sgn, r6) :=
          match r5 with
          | '+' :: r7 => (['+'], r7)
          | '-' :: r7 => (['-'], r7)
          | _ => ([], r5)
        let (ds, r8) := List.span isDig r6
        if ds = [] then none else some (fpart ++ e :: sgn ++ ds, r8)
      else some (fpart, r4)
    | [] => some (fpart, r4)

/-- Parse a JSON number token: `-? (0 | [1-9][0-9]*) frac? exp?`
(Go scanner grammar).  Returns the token text and the rest. -/
def parseNumber (input : List Char) : Option (List Char × List Char) :=
  let (sgn, r1) :=
    match input with
    | '-' :: r => (['-'], r)
    | _ => ([], input)
  match r1 with
  | '0' :: r2 =>
    (parseFracExp r2).map (fun p => (sgn ++ '0' :: p.1, p.2))
  | c :: r2 =>
    if isDig c then
      let (ds, r3) := List.span isDig r2
      (parseFracExp r3).map (fun p => (sgn ++ c :: ds ++ p.1, p.2))
    else none
  | [] => none

mutual

/-- Parse one JSON value starting at `input` (leading whitespace already
skipped).  Returns the value and the *unconsumed* remainder of the input:
`json.Decoder.Decode` reads exactly one value and leaves the rest of the
stream untouched.  The fuel argument only bounds recursion; every mutual
call consumes at least one character first, so `input.length + 1` fuel is
always sufficient. -/
def parseValue : Nat → List Char → Option (JValue × List Char)
  | 0, _ => none
  | _ + 1, [] => none
  | fuel + 1, ch :: cs =>
    if ch = '\x7b' then
      match skipWs cs with
      | '\x7d' :: rest => some (.jobj [], rest)
      | cs2 => (parseMembers fuel cs2).map (fun p => (.jobj p.1, p.2))
    else if ch = '[' then
      match skipWs cs with
      | ']' :: rest => some (.jarr [], rest)
      | cs2 => (parseElems fuel cs2).map (fun p => (.jarr p.1, p.2))
    else if ch = '"' then
      (parseStringBody (cs.length + 1) cs).map (fun p => (.jstr (String.mk p.1), p.2))
    else if ch = 't' then
      match cs with
      | 'r' :: 'u' :: 'e' :: rest => some (.jbool true, rest)
      | _ => none
    else if ch = 'f' then
      match cs with
      | 'a' :: 'l' :: 's' :: 'e' :: rest => some (.jbool false, rest)
      | _ => none
    else if ch = 'n' then
      match cs with
      | 'u' :: 'l' :: 'l' :: rest => some (.jnull, rest)
      | _ => none
    else if ch = '-' ∨ isDig ch then
      (parseNumber (ch :: cs)).map (fun p => (.jnum (String.mk p.1), p.2))
    else none

/-- Parse the members of a JSON object, positioned at the first key
(whitespace skipped, nonempty-object case).  Returns the member list in
input order and the input after the closing brace. -/
def parseMembers : Nat → List Char → Option (List (String × JValue) × List Char)
  | 0, _ => none
  | fuel + 1, input =>
    match input with
    | '"' :: cs =>
      (match parseStringBody (cs.length + 1) cs with
       | none => none
       | some (key, r1) => parseMembersAfterKey fuel (String.mk key) r1)
    | _ => none

/-- Continue an object member after its key: expect a colon, then parse
the member's value. -/
def parseMembersAfterKey : Nat → String → List Char → Option (List (String × JValue) × List Char)
  | 0, _, _ => none
  | fuel + 1, key, r1 =>
    match skipWs r1 with
    | ':' :: r2 =>
      (match parseValue fuel (skipWs r2) with
       | none => none
       | some (v, r3) => parseMembersAfterValue fuel key v r3)
    | _ => none

/-- Continue an object after a complete member: a comma starts the next
member, a closing brace ends the object. -/
def parseMembersAfterValue :
    Nat → String → JValue → List Char → Option (List (String × JValue) × List Char)
  | 0, _, _, _ => none
  | fuel + 1, key, v, r3 =>
    match skipWs r3 with
    | ',' :: r4 =>
      (match parseMembers fuel (skipWs r4) with
       | some (ms, r5) => some ((key, v) :: ms, r5)
       | none => none)
    | '\x7d' :: r4 => some ([(key, v)], r4)
    | _ => none

/-- Parse the elements of a JSON array, positioned at the first element
(whitespace skipped, nonempty-array case). -/
def parseElems : Nat → List Char → Option (List JValue × List Char)
  | 0, _ => none
  | fuel + 1, input =>
    match parseValue fuel input with
    | none => none
    | some (v, r1) =>
      match skipWs r1 with
      | ',' :: r2 =>
        (match parseElems fuel (skipWs r2) with
         | some (vs, r3) => some (v :: vs, r3)
         | none => none)
      | ']' :: r2 => some ([v], r2)
      | _ => none

end

/-! ## Unmarshalling into a `Cat`

Models `json.Unmarshal` into the `Cat` struct: the value must be an
object (or `null`, which is a no-op); object keys match struct fields by
tag, exact match preferred, else case-insensitive; values for matched
fields must be JSON strings or `null` (a `null` leaves the field
untouched); unknown keys are ignored; later duplicate keys overwrite. -/

/-- The four fields of the `Cat` struct. -/
inductive CatField where
  | fname
  | fid
  | fbirth
  | fcolor

/-- Which struct field (if any) an incoming object key selects.  Exact tag
match first, then case-insensitive, as `encoding/json` field matching. -/
def fieldForKey (k : String) : Option CatField :=
  if k = "name" then some .fname
  else if k = "id" then some .fid
  else if k = "birthDate" then some .fbirth
  else if k = "color" then some .fcolor
  else if k.toLower = "name" then some .fname
  else if k.toLower = "id" then some .fid
  else if k.toLower = "birthdate" then some .fbirth
  else if k.toLower = "color" then some .fcolor
  else none

/-- Set one field of a `Cat`. -/
def setField (c : Cat) : CatField → String → Cat
  | .fname, v => { c with name := v }
  | .fid, v => { c with id := v }
  | .fbirth, v => { c with birthDate := v }
  | .fcolor, v => { c with color := v }

/-- Process one object member into the partially-filled struct.  A value
of the wrong type for a known field is an unmarshalling error; `null`
into a string field is a no-op; unknown keys are skipped. -/
def assignMember (c : Cat) : String × JValue → Option Cat
  | (k, v) =>
    match fieldForKey k with
    | none => some c
    | some f =>
      match v with
      | .jstr s => some (setField c f s)
      | .jnull => some c
      | _ => none

/-- Unmarshal a JSON value into a `Cat` (zero value to start), as
`json.Unmarshal` would into `&catCreationData`. -/
def unmarshalCat : JValue → Option Cat
  | .jnull => some Cat.zero
  | .jobj ms => ms.foldlM assignMember Cat.zero
  | _ => none

/-- `decoder.Decode(&catCreationData)` from `createCat`: parse the first
JSON value of the request body and unmarshal it; anything after that
first value is never read.  `none` is the `err != nil` case (including an
empty body, Go's `io.EOF`). -/
def decodeCat (body : String) : Option Cat :=
  match parseValue (body.data.length + 1) (skipWs body.data) with
  | some (v, _) => unmarshalCat v
  | none => none

/-! ## Marshalling

Models `json.Marshal` output for the payload shapes the handlers return:
compact JSON, struct fields in declaration order, `omitempty` fields
dropped when empty, string escaping as Go's encoder (HTML-escaping on by
default). -/

/-- Escape one character as Go's JSON encoder does: quote and backslash
escaped, newline, carriage return and tab shortened, other control
characters, the HTML characters and U+2028/U+2029 written as
`{backslash}uXXXX`, everything else verbatim. -/
def escapeChar (c : Char) : List Char :=
  if c = '"' then ['\\', '"']
  else if c = '\\' then ['\\', '\\']
  else if c = '\n' then ['\\', 'n']
  else if c = '\r' then ['\\', 'r']
  else if c = '\t' then ['\\', 't']
  else if c.toNat < 0x20 ∨ c = '<' ∨ c = '>' ∨ c = '&' ∨ c.toNat = 0x2028 ∨ c.toNat = 0x2029 then
    '\\' :: 'u' :: hex4chars c.toNat
  else [c]

/-- Escape every character of a string body in sequence. -/
def escapeList : List Char → List Char
  | [] => []
  | c :: cs => escapeChar c ++ escapeList cs

/-- The characters of the JSON encoding of a string, quotes included. -/
def encodeJString (s : String) : List Char :=
  '"' :: escapeList s.data ++ ['"']

/-- The `omitempty` members `json.Marshal` emits for a `Cat` after the
unconditional `name`: `id`, `birthDate`, `color`, each only when
nonempty, in struct declaration order. -/
def catMembersTail (c : Cat) : List (String × String) :=
  (if c.id = "" then [] else [("id", c.id)]) ++
    (if c.birthDate = "" then [] else [("birthDate", c.birthDate)]) ++
      (if c.color = "" then [] else [("color", c.color)])

/-- The members `json.Marshal` emits for a `Cat`, as (key, string value)
pairs in struct declaration order: `name` unconditionally, then the
`omitempty` fields. -/
def catMembers (c : Cat) : List (String × String) :=
  ("name", c.name) :: catMembersTail c

/-- Encode a member list as the inside of a compact JSON object. -/
def encodeMembers : List (String × String) → List Char
  | [] => []
  | [(k, v)] => encodeJString k ++ ':' :: encodeJString v
  | (k, v) :: rest => encodeJString k ++ ':' :: encodeJString v ++ ',' :: encodeMembers rest

/-- The JSON text `json.Marshal` produces for a `Cat`. -/
def encodeCat (c : Cat) : List Char :=
  '\x7b' :: encodeMembers (catMembers c) ++ ['\x7d']

/-! ## The store and the handlers -/

/-- The in-memory database, Go's `map[string]Cat`, modelled as an
association list; reachable states keep their keys free of duplicates,
as a Go map does by construction. -/
abbrev CatMap := List (String × Cat)

/-- `m[k]` (the comma-ok read). -/
def mapLookup : CatMap → String → Option Cat
  | [], _ => none
  | (k', v') :: rest, k => if k' = k then some v' else mapLookup rest k

/-- `_, found := m[k]`. -/
def mapContains (db : CatMap) (k : String) : Bool :=
  (mapLookup db k).isSome

/-- `m[k] = v`: replace the binding if the key is present, else add it. -/
def mapInsert : CatMap → String → Cat → CatMap
  | [], k, v => [(k, v)]
  | (k', v') :: rest, k, v =>
    if k' = k then (k, v) :: rest else (k', v') :: mapInsert rest k v

/-- `delete(m, k)`. -/
def mapErase : CatMap → String → CatMap
  | [], _ => []
  | (k', v') :: rest, k => if k' = k then rest else (k', v') :: mapErase rest k

/-- The seed store from `allCatsHandlers.go`:
`var catsDatabase = map[string]Cat{"id1": {Name: "Toto", Color: "Grey",
BirthDate: "2023-04-16"}}` (the `ID` field takes the zero value `""`). -/
def initialCatsDatabase : CatMap :=
  [("id1", { name := "Toto", id := "", birthDate := "2023-04-16", color := "Grey" })]

/-- The accumulation loop of `listMapKeys`. -/
def listMapKeysAux : List String → CatMap → List String
  | results, [] => results
  | results, p :: rest => listMapKeysAux (results ++ [p.1]) rest

/-- `listMapKeys` from `allCatsHandlers.go`: collect the keys of the map
(the Go iteration order is unspecified; the model uses list order). -/
def listMapKeys (aMap : CatMap) : List String :=
  listMapKeysAux [] aMap

/-- A handler's `any` result: `nil`, a string, a `Cat`, or a key list. -/
inductive Payload where
  | empty
  | str (s : String)
  | record (c : Cat)
  | ids (l : List String)
deriving Repr, DecidableEq

/-- `listCats`: respond 200 with the key list. -/
def listCats (db : CatMap) : Nat × Payload :=
  (200, .ids (listMapKeys db))

/-- `getCat` from `oneCatHandlers.go`: 200 with the record when the id is
a key of the store, else 404 with "Cat not found". -/
def getCat (db : CatMap) (catID : String) : Nat × Payload :=
  match mapLookup db catID with
  | some cat => (200, .record cat)
  | none => (404, .str "Cat not found")

/-- `deleteCat`: when the id is present, remove it and respond 204 with a
nil body; otherwise respond 404 with "Cat not found" and leave the store
unchanged. -/
def deleteCat (db : CatMap) (catID : String) : (Nat × Payload) × CatMap :=
  if mapContains db catID then ((204, .empty), mapErase db catID)
  else ((404, .str "Cat not found"), db)

/-- `createCat` with the freshly drawn identifier passed explicitly (the
Go code draws it from `uuid.New().String()` after the decode succeeds):
decode the body; on failure respond 400 with "Invalid JSON input" and
leave the store untouched; on success overwrite the record's `id` with
the new identifier, store it under that identifier, and respond 201 with
the identifier. -/
def createCatWith (newCatID : String) (body : String) (db : CatMap) :
    (Nat × Payload) × CatMap :=
  match decodeCat body with
  | none => ((400, .str "Invalid JSON input"), db)
  | some catCreationData =>
    ((201, .str newCatID), mapInsert db newCatID { catCreationData with id := newCatID })

/-- Modelled from the spec: the Identifier Generator (`uuid.New().String()`
from the external `github.com/google/uuid` package, whose code is not part
of this repository).  Section 4.2: `next() -> id` "produces a new
globally-unique key", "Must never produce a value already present as a
key", and never fails.  Modelled as a deterministic choice of a string
strictly longer than every key currently in the store, hence fresh. -/
def uuidNext (db : CatMap) : String :=
  (listMapKeys db).foldl (fun acc s => acc ++ s) "" ++ "x"

/-- The `createCat` handler: draw the identifier from the generator, then
run the body-decoding and storing logic. -/
def createCat (db : CatMap) (body : String) : (Nat × Payload) × CatMap :=
  createCatWith (uuidNext db) body db

/-- Modelled from the spec: the Response Encoder (section 4.5, the
`webServer` collaborator, not part of the handler sources): "serialize
the handler's payload to JSON"; "A nil/absent payload produces an empty
body (used for 204)". -/
def encodePayload : Payload → List Char
  | .empty => []
  | .str s => encodeJString s
  | .record c => encodeCat c
  | .ids l =>
    '[' :: (match l.map encodeJString with
            | [] => []
            | e :: es => es.foldl (fun acc x => acc ++ ',' :: x) e) ++ [']']

/-! ## Request traces

A process-lifetime trace: the store starts at `initialCatsDatabase` and
each request is a create (with a request body) or a delete (with a path
identifier).  `list` and `get` are read-only and need not appear in
traces. -/

/-- One store-mutating request. -/
inductive Event where
  | create (body : String)
  | delete (id : String)

/-- The store after handling one request. -/
def stepEvent (db : CatMap) : Event → CatMap
  | .create body => (createCat db body).2
  | .delete id => (deleteCat db id).2

/-- The store after a sequence of requests. -/
def runEvents (db : CatMap) : List Event → CatMap
  | [] => db
  | e :: es => runEvents (stepEvent db e) es

/-- The identifiers returned by the successful (201) creates of a trace,
in order. -/
def createdIds (db : CatMap) : List Event → List String
  | [] => []
  | .create body :: es =>
    match decodeCat body with
    | some _ => uuidNext db :: createdIds (stepEvent db (.create body)) es
    | none => createdIds db es
  | .delete id :: es => createdIds (stepEvent db (.delete id)) es

/-- The number of successful (204) deletes of a trace. -/
def countDeletes (db : CatMap) : List Event → Nat
  | [] => 0
  | .create body :: es => countDeletes (stepEvent db (.create body)) es
  | .delete id :: es =>
    (if mapContains db id then 1 else 0) + countDeletes (stepEvent db (.delete id)) es

/-! ## Store lemmas -/

theorem listMapKeysAux_eq (m : CatMap) : ∀ acc, listMapKeysAux acc m = acc ++ m.map Prod.fst := by
  induction m with
  | nil => intro acc; simp [listMapKeysAux]
  | cons p rest ih => intro acc; simp [listMapKeysAux, ih]

@[simp] theorem listMapKeys_eq (m : CatMap) : listMapKeys m = m.map Prod.fst := by
  simp [listMapKeys, listMapKeysAux_eq]

theorem mapLookup_eq_none_iff (db : CatMap) (k : String) :
    mapLookup db k = none ↔ k ∉ db.map Prod.fst := by
  induction db with
  | nil => simp [mapLookup]
  | cons p rest ih =>
    obtain ⟨k', v'⟩ := p
    by_cases h : k' = k
    · subst h; simp [mapLookup]
    · simp [mapLookup, h, ih, Ne.symm h]

theorem mapContains_iff (db : CatMap) (k : String) :
    mapContains db k = true ↔ k ∈ db.map Prod.fst := by
  rw [mapContains, Option.isSome_iff_ne_none, ne_eq, mapLookup_eq_none_iff, not_not]

theorem mapLookup_mapInsert_self (db : CatMap) (k : String) (v : Cat) :
    mapLookup (mapInsert db k v) k = some v := by
  induction db with
  | nil => simp [mapInsert, mapLookup]
  | cons p rest ih =>
    obtain ⟨k', v'⟩ := p
    by_cases h : k' = k <;> simp [mapInsert, h, mapLookup, ih]

theorem mapLookup_mapInsert_ne (db : CatMap) (k k' : String) (v : Cat) (h : k ≠ k') :
    mapLookup (mapInsert db k v) k' = mapLookup db k' := by
  induction db with
  | nil => simp [mapInsert, mapLookup, h]
  | cons p rest ih =>
    obtain ⟨k0, v0⟩ := p
    by_cases h0 : k0 = k
    · subst h0; simp [mapInsert, mapLookup, h, ih]
    · simp only [mapInsert, if_neg h0]
      by_cases h1 : k0 = k' <;> simp [mapLookup, h1, ih]

theorem keys_mapInsert_fresh (db : CatMap) (k : String) (v : Cat)
    (h : k ∉ db.map Prod.fst) :
    (mapInsert db k v).map Prod.fst = db.map Prod.fst ++ [k] := by
  induction db with
  | nil => simp [mapInsert]
  | cons p rest ih =>
    obtain ⟨k', v'⟩ := p
    simp only [List.map_cons, List.mem_cons] at h
    push_neg at h
    simp [mapInsert, Ne.symm h.1, ih h.2]

theorem keys_mapInsert_present (db : CatMap) (k : String) (v : Cat)
    (h : k ∈ db.map Prod.fst) :
    (mapInsert db k v).map Prod.fst = db.map Prod.fst := by
  induction db with
  | nil => simp at h
  | cons p rest ih =>
    obtain ⟨k', v'⟩ := p
    by_cases h0 : k' = k
    · simp [mapInsert, h0]
    · simp only [List.map_cons, List.mem_cons] at h
      rcases h with h | h
      · exact (h0 h.symm).elim
      · simp [mapInsert, h0, ih h]

theorem keys_mapErase (db : CatMap) (k : String) :
    (mapErase db k).map Prod.fst = (db.map Prod.fst).erase k := by
  induction db with
  | nil => simp [mapErase]
  | cons p rest ih =>
    obtain ⟨k', v'⟩ := p
    by_cases h : k' = k
    · subst h; simp [mapErase, List.erase_cons_head]
    · simp [mapErase, h, List.erase_cons_tail, ih, List.erase_cons,
        show ¬(k' == k) = true by simpa using h]

theorem mapLookup_mapErase_ne (db : CatMap) (k k' : String) (h : k ≠ k') :
    mapLookup (mapErase db k) k' = mapLookup db k' := by
  induction db with
  | nil => simp [mapErase]
  | cons p rest ih =>
    obtain ⟨k0, v0⟩ := p
    by_cases h0 : k0 = k
    · subst h0; simp [mapErase, mapLookup, h]
    · by_cases h1 : k0 = k'
      · subst h1; simp [mapErase, h0, mapLookup]
      · simp [mapErase, h0, mapLookup, h1, ih]

/-! ## Generator freshness -/

theorem length_le_foldl_append (l : List String) :
    ∀ acc : String, acc.length ≤ (l.foldl (fun a s => a ++ s) acc).length := by
  induction l with
  | nil => intro acc; simp
  | cons s rest ih =>
    intro acc
    calc acc.length ≤ (acc ++ s).length := by simp
    _ ≤ _ := ih (acc ++ s)

theorem mem_length_le_foldl (l : List String) :
    ∀ acc s, s ∈ l → s.length ≤ (l.foldl (fun a s => a ++ s) acc).length := by
  induction l with
  | nil => intro acc s h; simp at h
  | cons t rest ih =>
    intro acc s h
    rcases List.mem_cons.mp h with h | h
    · subst h
      calc s.length ≤ (acc ++ s).length := by simp
      _ ≤ _ := length_le_foldl_append rest (acc ++ s)
    · exact ih (acc ++ t) s h

/-- The modelled generator honours its contract: the produced id is never
already a key of the store. -/
theorem uuidNext_fresh (db : CatMap) : uuidNext db ∉ listMapKeys db := by
  intro hmem
  have hlen := mem_length_le_foldl (listMapKeys db) "" (uuidNext db) hmem
  have : (uuidNext db).length =
      ((listMapKeys db).foldl (fun a s => a ++ s) "").length + 1 := by
    simp [uuidNext]
    rfl
  omega

/-! ## Trace lemmas -/

theorem runEvents_append (l m : List Event) :
    ∀ db, runEvents db (l ++ m) = runEvents (runEvents db l) m := by
  induction l with
  | nil => intro db; rfl
  | cons e es ih => intro db; simp [runEvents, ih]

theorem keys_stepEvent_nodup (db : CatMap) (e : Event)
    (h : (db.map Prod.fst).Nodup) : ((stepEvent db e).map Prod.fst).Nodup := by
  cases e with
  | create body =>
    simp only [stepEvent, createCat, createCatWith]
    cases hd : decodeCat body with
    | none => simpa using h
    | some c =>
      have hfresh : uuidNext db ∉ db.map Prod.fst := by
        simpa using uuidNext_fresh db
      simp only [keys_mapInsert_fresh db _ _ hfresh]
      simp [List.nodup_append, h, hfresh]
  | delete id =>
    simp only [stepEvent, deleteCat]
    by_cases hc : mapContains db id
    · simp only [hc, if_true, keys_mapErase]
      exact h.erase id
    · simpa [hc] using h

theorem keys_runEvents_nodup (evs : List Event) :
    ∀ db, (db.map Prod.fst).Nodup → ((runEvents db evs).map Prod.fst).Nodup := by
  induction evs with
  | nil => intro db h; exact h
  | cons e es ih => intro db h; exact ih _ (keys_stepEvent_nodup db e h)

theorem createdIds_cons_some (db : CatMap) (body : String) (es : List Event) (c : Cat)
    (hd : decodeCat body = some c) :
    createdIds db (.create body :: es) =
      uuidNext db :: createdIds (stepEvent db (.create body)) es := by
  simp [createdIds, hd]

theorem createdIds_cons_none (db : CatMap) (body : String) (es : List Event)
    (hd : decodeCat body = none) :
    createdIds db (.create body :: es) = createdIds db es := by
  simp [createdIds, hd]

theorem createdIds_cons_delete (db : CatMap) (i : String) (es : List Event) :
    createdIds db (.delete i :: es) = createdIds (stepEvent db (.delete i)) es := rfl

theorem countDeletes_cons_create (db : CatMap) (body : String) (es : List Event) :
    countDeletes db (.create body :: es) = countDeletes (stepEvent db (.create body)) es := rfl

theorem countDeletes_cons_delete (db : CatMap) (i : String) (es : List Event) :
    countDeletes db (.delete i :: es) =
      (if mapContains db i then 1 else 0) + countDeletes (stepEvent db (.delete i)) es := rfl

theorem stepEvent_create_none (db : CatMap) (body : String) (hd : decodeCat body = none) :
    stepEvent db (.create body) = db := by
  simp [stepEvent, createCat, createCatWith, hd]

theorem keys_stepEvent_create_some (db : CatMap) (body : String) (c : Cat)
    (hd : decodeCat body = some c) :
    (stepEvent db (.create body)).map Prod.fst = db.map Prod.fst ++ [uuidNext db] := by
  have hfresh : uuidNext db ∉ db.map Prod.fst := by
    simpa using uuidNext_fresh db
  simp [stepEvent, createCat, createCatWith, hd, keys_mapInsert_fresh db _ _ hfresh]

theorem stepEvent_delete_present (db : CatMap) (i : String) (hc : mapContains db i) :
    (stepEvent db (.delete i)).map Prod.fst = (db.map Prod.fst).erase i := by
  simp [stepEvent, deleteCat, hc, keys_mapErase]

theorem stepEvent_delete_absent (db : CatMap) (i : String) (hc : ¬ mapContains db i) :
    stepEvent db (.delete i) = db := by
  simp [stepEvent, deleteCat, hc]

theorem size_runEvents (evs : List Event) :
    ∀ db, ((runEvents db evs).map Prod.fst).length + countDeletes db evs =
      (db.map Prod.fst).length + (createdIds db evs).length := by
  induction evs with
  | nil => intro db; simp [runEvents, countDeletes, createdIds]
  | cons e es ih =>
    intro db
    cases e with
    | create body =>
      rw [show runEvents db (.create body :: es)
            = runEvents (stepEvent db (.create body)) es from rfl,
          countDeletes_cons_create]
      cases hd : decodeCat body with
      | none =>
        rw [createdIds_cons_none db body es hd, stepEvent_create_none db body hd]
        exact ih db
      | some c =>
        rw [createdIds_cons_some db body es c hd]
        have hih := ih (stepEvent db (.create body))
        rw [keys_stepEvent_create_some db body c hd] at hih
        simp only [List.length_append, List.length_cons, List.length_nil] at hih ⊢
        omega
    | delete id =>
      rw [show runEvents db (.delete id :: es)
            = runEvents (stepEvent db (.delete id)) es from rfl,
          countDeletes_cons_delete, createdIds_cons_delete]
      by_cases hc : mapContains db id
      · have hmem : id ∈ db.map Prod.fst := (mapContains_iff db id).mp hc
        have hih := ih (stepEvent db (.delete id))
        rw [stepEvent_delete_present db id hc] at hih
        have herase := List.length_erase_of_mem hmem
        have hpos : 0 < (db.map Prod.fst).length := List.length_pos.mpr (by
          intro hnil; rw [hnil] at hmem; simp at hmem)
        simp only [hc, if_true]
        omega
      · rw [stepEvent_delete_absent db id hc]
        simp only [hc, if_false]
        simpa using ih db

theorem keys_runEvents_subset (evs : List Event) :
    ∀ db id, id ∈ (runEvents db evs).map Prod.fst →
      id ∈ db.map Prod.fst ∨ id ∈ createdIds db evs := by
  induction evs with
  | nil => intro db id h; exact Or.inl h
  | cons e es ih =>
    intro db id h
    cases e with
    | create body =>
      simp only [runEvents] at h
      rcases ih _ id h with hin | hin
      · cases hd : decodeCat body with
        | none =>
          have : stepEvent db (.create body) = db := by
            simp [stepEvent, createCat, createCatWith, hd]
          rw [this] at hin
          exact Or.inl hin
        | some c =>
          have hkeys : (stepEvent db (.create body)).map Prod.fst
              = db.map Prod.fst ++ [uuidNext db] := by
            have hfresh : uuidNext db ∉ db.map Prod.fst := by
              simpa using uuidNext_fresh db
            simp [stepEvent, createCat, createCatWith, hd, keys_mapInsert_fresh db _ _ hfresh]
          rw [hkeys] at hin
          rcases List.mem_append.mp hin with hin | hin
          · exact Or.inl hin
          · right
            simp [createdIds, hd, List.mem_singleton.mp hin]
      · right
        cases hd : decodeCat body with
        | none =>
          have : stepEvent db (.create body) = db := by
            simp [stepEvent, createCat, createCatWith, hd]
          rw [this] at hin
          simpa [createdIds, hd] using hin
        | some c => simp [createdIds, hd, hin]
    | delete did =>
      simp only [runEvents] at h
      rcases ih _ id h with hin | hin
      · left
        by_cases hc : mapContains db did
        · have hkeys : (stepEvent db (.delete did)).map Prod.fst
              = (db.map Prod.fst).erase did := by
            simp [stepEvent, deleteCat, hc, keys_mapErase]
          rw [hkeys] at hin
          exact List.mem_of_mem_erase hin
        · have : stepEvent db (.delete did) = db := by
            simp [stepEvent, deleteCat, hc]
          rw [this] at hin; exact hin
      · right; simpa [createdIds] using hin

theorem stays_absent (evs : List Event) :
    ∀ db id, id ∉ db.map Prod.fst → id ∉ createdIds db evs →
      id ∉ (runEvents db evs).map Prod.fst := by
  induction evs with
  | nil => intro db id h _; exact h
  | cons e es ih =>
    intro db id h hc
    cases e with
    | create body =>
      simp only [runEvents]
      cases hd : decodeCat body with
      | none =>
        have hstep : stepEvent db (.create body) = db := by
          simp [stepEvent, createCat, createCatWith, hd]
        rw [hstep]
        exact ih db id h (by simpa [createdIds, hd, hstep] using hc)
      | some c =>
        have hcs : id ∉ uuidNext db :: createdIds (stepEvent db (.create body)) es := by
          simpa [createdIds, hd] using hc
        have hne : id ≠ uuidNext db := fun heq => hcs (heq ▸ List.mem_cons_self _ _)
        have htail : id ∉ createdIds (stepEvent db (.create body)) es :=
          fun hmem => hcs (List.mem_cons_of_mem _ hmem)
        apply ih _ id _ htail
        have hfresh : uuidNext db ∉ db.map Prod.fst := by
          simpa using uuidNext_fresh db
        have hkeys : (stepEvent db (.create body)).map Prod.fst
            = db.map Prod.fst ++ [uuidNext db] := by
          simp [stepEvent, createCat, createCatWith, hd, keys_mapInsert_fresh db _ _ hfresh]
        rw [hkeys]
        simp [h, hne]
    | delete did =>
      simp only [runEvents]
      apply ih _ id _ (by simpa [createdIds] using hc)
      by_cases hdc : mapContains db did
      · have hkeys : (stepEvent db (.delete did)).map Prod.fst
            = (db.map Prod.fst).erase did := by
          simp [stepEvent, deleteCat, hdc, keys_mapErase]
        rw [hkeys]
        exact fun hmem => h (List.mem_of_mem_erase hmem)
      · have : stepEvent db (.delete did) = db := by
          simp [stepEvent, deleteCat, hdc]
        rw [this]; exact h

/-! ## The JSON string round trip -/

theorem hexDigit?_hexDig (m : Nat) (h : m < 16) : hexDigit? (hexDig m) = some m := by
  interval_cases m <;> decide

theorem charOfCode_toNat (ch : Char) : charOfCode ch.toNat = ch := by
  have hv : ch.toNat.isValidChar := ch.valid
  simp [charOfCode, hv]

theorem escapeChar_length_pos (c : Char) : 1 ≤ (escapeChar c).length := by
  unfold escapeChar
  split_ifs <;> simp [hex4chars]

theorem parseStringBody_plain (f : Nat) (c : Char) (tail : List Char)
    (h1 : c ≠ '"') (h2 : c ≠ '\\') (h3 : ¬ c.toNat < 0x20) :
    parseStringBody (f + 1) (c :: tail)
      = (parseStringBody f tail).map (fun p => (c :: p.1, p.2)) := by
  rw [parseStringBody.eq_def]
  split <;> simp_all

theorem parseStringBody_escape (l : List Char) :
    ∀ f rest, (escapeList l).length < f →
      parseStringBody f (escapeList l ++ '"' :: rest) = some (l, rest) := by
  induction l with
  | nil =>
    intro f rest hf
    obtain ⟨f', rfl⟩ : ∃ f', f = f' + 1 := ⟨f - 1, by omega⟩
    rfl
  | cons ch cs ih =>
    intro f rest hf
    have hc1 : 1 ≤ (escapeChar ch).length := escapeChar_length_pos ch
    have hlen : (escapeList (ch :: cs)).length
        = (escapeChar ch).length + (escapeList cs).length := by
      simp [escapeList]
    obtain ⟨f', rfl⟩ : ∃ f', f = f' + 1 := ⟨f - 1, by omega⟩
    have hf' : (escapeList cs).length < f' := by omega
    have ihr := ih f' rest hf'
    by_cases h1 : ch = '"'
    · subst h1
      show (parseStringBody f' (escapeList cs ++ '"' :: rest)).map
          (fun p => ('"' :: p.1, p.2)) = some ('"' :: cs, rest)
      rw [ihr]; rfl
    · by_cases h2 : ch = '\\'
      · subst h2
        show (parseStringBody f' (escapeList cs ++ '"' :: rest)).map
            (fun p => ('\\' :: p.1, p.2)) = some ('\\' :: cs, rest)
        rw [ihr]; rfl
      · by_cases h3 : ch = '\n'
        · subst h3
          show (parseStringBody f' (escapeList cs ++ '"' :: rest)).map
              (fun p => ('\n' :: p.1, p.2)) = some ('\n' :: cs, rest)
          rw [ihr]; rfl
        · by_cases h4 : ch = '\r'
          · subst h4
            show (parseStringBody f' (escapeList cs ++ '"' :: rest)).map
                (fun p => ('\r' :: p.1, p.2)) = some ('\r' :: cs, rest)
            rw [ihr]; rfl
          · by_cases h5 : ch = '\t'
            · subst h5
              show (parseStringBody f' (escapeList cs ++ '"' :: rest)).map
                  (fun p => ('\t' :: p.1, p.2)) = some ('\t' :: cs, rest)
              rw [ihr]; rfl
            · by_cases h6 : ch.toNat < 0x20 ∨ ch = '<' ∨ ch = '>' ∨ ch = '&' ∨
                  ch.toNat = 0x2028 ∨ ch.toNat = 0x2029
              · -- the `{backslash}uXXXX` branch
                have hnum : ch.toNat < 0x20 ∨ ch.toNat = 60 ∨ ch.toNat = 62 ∨ ch.toNat = 38 ∨
                    ch.toNat = 0x2028 ∨ ch.toNat = 0x2029 := by
                  rcases h6 with h | h | h | h | h | h
                  · exact Or.inl h
                  · subst h; exact Or.inr (Or.inl rfl)
                  · subst h; exact Or.inr (Or.inr (Or.inl rfl))
                  · subst h; exact Or.inr (Or.inr (Or.inr (Or.inl rfl)))
                  · exact Or.inr (Or.inr (Or.inr (Or.inr (Or.inl h))))
                  · exact Or.inr (Or.inr (Or.inr (Or.inr (Or.inr h))))
                have he : escapeChar ch = '\\' :: 'u' :: hex4chars ch.toNat := by
                  simp only [escapeChar, if_neg h1, if_neg h2, if_neg h3, if_neg h4, if_neg h5,
                    if_pos h6]
                have hgoal : escapeList (ch :: cs) ++ '"' :: rest
                    = '\\' :: 'u' :: hexDig (ch.toNat / 4096 % 16) ::
                        hexDig (ch.toNat / 256 % 16) :: hexDig (ch.toNat / 16 % 16) ::
                        hexDig (ch.toNat % 16) :: (escapeList cs ++ '"' :: rest) := by
                  simp [escapeList, he, hex4chars]
                rw [hgoal]
                have hx1 := hexDigit?_hexDig (ch.toNat / 4096 % 16) (Nat.mod_lt _ (by norm_num))
                have hx2 := hexDigit?_hexDig (ch.toNat / 256 % 16) (Nat.mod_lt _ (by norm_num))
                have hx3 := hexDigit?_hexDig (ch.toNat / 16 % 16) (Nat.mod_lt _ (by norm_num))
                have hx4 := hexDigit?_hexDig (ch.toNat % 16) (Nat.mod_lt _ (by norm_num))
                have harith : ((ch.toNat / 4096 % 16 * 16 + ch.toNat / 256 % 16) * 16 +
                    ch.toNat / 16 % 16) * 16 + ch.toNat % 16 = ch.toNat := by omega
                have hsur : ¬(0xD800 ≤ ch.toNat ∧ ch.toNat ≤ 0xDFFF) := by omega
                simp only [parseStringBody, hx1, hx2, hx3, hx4, harith]
                rw [if_neg hsur, ihr]
                simp [charOfCode_toNat]
              · -- the verbatim branch
                have h6' := h6
                push_neg at h6'
                have he : escapeChar ch = [ch] := by
                  simp only [escapeChar, if_neg h1, if_neg h2, if_neg h3, if_neg h4, if_neg h5,
                    if_neg h6]
                have hgoal : escapeList (ch :: cs) ++ '"' :: rest
                    = ch :: (escapeList cs ++ '"' :: rest) := by
                  simp [escapeList, he]
                rw [hgoal, parseStringBody_plain f' ch _ h1 h2 (by omega), ihr]
                rfl

/-! ## Parsing back the encoder's output -/

/-- The text that follows a member in a compact encoded object: nothing
before the closing brace, or a comma and the remaining members. -/
def memTail : List (String × String) → List Char
  | [] => []
  | p :: ps => ',' :: encodeMembers (p :: ps)

theorem encodeMembers_shape (k v : String) (ps : List (String × String)) (rest : List Char) :
    encodeMembers ((k, v) :: ps) ++ rest
      = '"' :: (escapeList k.data ++ ('"' :: ':' :: '"' ::
          (escapeList v.data ++ ('"' :: (memTail ps ++ rest))))) := by
  cases ps <;> simp [encodeMembers, memTail, encodeJString]

theorem parseValue_jstr (f : Nat) (s : String) (tail : List Char) :
    parseValue (f + 1) (encodeJString s ++ tail) = some (.jstr s, tail) := by
  have hrw : encodeJString s ++ tail = '"' :: (escapeList s.data ++ '"' :: tail) := by
    simp [encodeJString]
  rw [hrw]
  show (parseStringBody ((escapeList s.data ++ '"' :: tail).length + 1)
      (escapeList s.data ++ '"' :: tail)).map (fun p => (JValue.jstr (String.mk p.1), p.2))
      = some (.jstr s, tail)
  rw [parseStringBody_escape s.data _ tail (by rw [List.length_append]; omega)]
  rfl

theorem parseMembers_encode (ps : List (String × String)) :
    ∀ (k v : String) (g : Nat) (rest : List Char), 3 * ps.length + 3 ≤ g →
      parseMembers g (encodeMembers ((k, v) :: ps) ++ '\x7d' :: rest)
        = some (((k, v) :: ps).map (fun p => (p.1, JValue.jstr p.2)), rest) := by
  induction ps with
  | nil =>
    intro k v g rest hg
    obtain ⟨f2, rfl⟩ : ∃ f2, g = f2 + 3 := ⟨g - 3, by omega⟩
    rw [encodeMembers_shape]
    simp only [memTail, List.nil_append]
    show (match parseStringBody
            ((escapeList k.data ++ ('"' :: ':' :: '"' ::
              (escapeList v.data ++ ('"' :: '\x7d' :: rest)))).length + 1)
            (escapeList k.data ++ ('"' :: ':' :: '"' ::
              (escapeList v.data ++ ('"' :: '\x7d' :: rest)))) with
          | none => none
          | some (key, r1) => parseMembersAfterKey (f2 + 2) (String.mk key) r1)
        = some ([(k, JValue.jstr v)], rest)
    have hk : (escapeList k.data).length
        < (escapeList k.data ++ ('"' :: ':' :: '"' ::
            (escapeList v.data ++ ('"' :: '\x7d' :: rest)))).length + 1 := by
      rw [List.length_append]; omega
    simp only [parseStringBody_escape k.data _ _ hk]
    show (match (parseStringBody ((escapeList v.data ++ ('"' :: '\x7d' :: rest)).length + 1)
            (escapeList v.data ++ ('"' :: '\x7d' :: rest))).map
            (fun p => (JValue.jstr (String.mk p.1), p.2)) with
          | none => none
          | some (v', r3) => parseMembersAfterValue (f2 + 1) (String.mk k.data) v' r3)
        = some ([(k, JValue.jstr v)], rest)
    have hv : (escapeList v.data).length
        < (escapeList v.data ++ ('"' :: '\x7d' :: rest)).length + 1 := by
      rw [List.length_append]; omega
    simp only [parseStringBody_escape v.data _ _ hv]
    rfl
  | cons q qs ih =>
    obtain ⟨qk, qv⟩ := q
    intro k v g rest hg
    obtain ⟨f2, rfl⟩ : ∃ f2, g = f2 + 3 := ⟨g - 3, by omega⟩
    rw [encodeMembers_shape]
    simp only [memTail, List.cons_append]
    show (match parseStringBody
            ((escapeList k.data ++ ('"' :: ':' :: '"' ::
              (escapeList v.data ++ ('"' :: ',' ::
                (encodeMembers ((qk, qv) :: qs) ++ '\x7d' :: rest))))).length + 1)
            (escapeList k.data ++ ('"' :: ':' :: '"' ::
              (escapeList v.data ++ ('"' :: ',' ::
                (encodeMembers ((qk, qv) :: qs) ++ '\x7d' :: rest))))) with
          | none => none
          | some (key, r1) => parseMembersAfterKey (f2 + 2) (String.mk key) r1)
        = some (((k, v) :: (qk, qv) :: qs).map (fun p => (p.1, JValue.jstr p.2)), rest)
    have hk : (escapeList k.data).length
        < (escapeList k.data ++ ('"' :: ':' :: '"' ::
            (escapeList v.data ++ ('"' :: ',' ::
              (encodeMembers ((qk, qv) :: qs) ++ '\x7d' :: rest))))).length + 1 := by
      rw [List.length_append]; omega
    simp only [parseStringBody_escape k.data _ _ hk]
    show (match (parseStringBody
            ((escapeList v.data ++ ('"' :: ',' ::
              (encodeMembers ((qk, qv) :: qs) ++ '\x7d' :: rest))).length + 1)
            (escapeList v.data ++ ('"' :: ',' ::
              (encodeMembers ((qk, qv) :: qs) ++ '\x7d' :: rest)))).map
            (fun p => (JValue.jstr (String.mk p.1), p.2)) with
          | none => none
          | some (v', r3) => parseMembersAfterValue (f2 + 1) (String.mk k.data) v' r3)
        = some (((k, v) :: (qk, qv) :: qs).map (fun p => (p.1, JValue.jstr p.2)), rest)
    have hv : (escapeList v.data).length
        < (escapeList v.data ++ ('"' :: ',' ::
            (encodeMembers ((qk, qv) :: qs) ++ '\x7d' :: rest))).length + 1 := by
      rw [List.length_append]; omega
    simp only [parseStringBody_escape v.data _ _ hv]
    show (match parseMembers f2 (skipWs (encodeMembers ((qk, qv) :: qs) ++ '\x7d' :: rest)) with
          | some (ms, r5) => some ((String.mk k.data, JValue.jstr (String.mk v.data)) :: ms, r5)
          | none => none)
        = some (((k, v) :: (qk, qv) :: qs).map (fun p => (p.1, JValue.jstr p.2)), rest)
    have hsk : skipWs (encodeMembers ((qk, qv) :: qs) ++ '\x7d' :: rest)
        = encodeMembers ((qk, qv) :: qs) ++ '\x7d' :: rest := by
      rw [encodeMembers_shape]
      rfl
    rw [hsk, ih qk qv f2 rest (by simp only [List.length_cons] at hg; omega)]
    rfl

theorem parseValue_encodeCat (c : Cat) (rest : List Char) (g : Nat)
    (hg : 3 * (catMembersTail c).length + 7 ≤ g) :
    parseValue g (encodeCat c ++ rest)
      = some (.jobj ((catMembers c).map (fun p => (p.1, .jstr p.2))), rest) := by
  obtain ⟨f, rfl⟩ : ∃ f, g = f + 1 := ⟨g - 1, by omega⟩
  have hrw : encodeCat c ++ rest
      = '\x7b' :: (encodeMembers (catMembers c) ++ '\x7d' :: rest) := by
    simp [encodeCat]
  rw [hrw]
  show (match skipWs (encodeMembers (catMembers c) ++ '\x7d' :: rest) with
        | '\x7d' :: r => some (JValue.jobj [], r)
        | cs2 => (parseMembers f cs2).map (fun p => (JValue.jobj p.1, p.2)))
      = some (JValue.jobj ((catMembers c).map (fun p => (p.1, JValue.jstr p.2))), rest)
  rw [show catMembers c = ("name", c.name) :: catMembersTail c from rfl,
    encodeMembers_shape]
  show (parseMembers f ('"' :: (escapeList ("name" : String).data ++ ('"' :: ':' :: '"' ::
        (escapeList c.name.data ++ ('"' :: (memTail (catMembersTail c) ++ '\x7d' :: rest))))))).map
      (fun p => (JValue.jobj p.1, p.2))
      = some (JValue.jobj ((("name", c.name) :: catMembersTail c).map
          (fun p => (p.1, JValue.jstr p.2))), rest)
  rw [← encodeMembers_shape,
    parseMembers_encode (catMembersTail c) "name" c.name f rest (by omega)]
  rfl

theorem unmarshalCat_catMembers (c : Cat) :
    unmarshalCat (.jobj ((catMembers c).map (fun p => (p.1, .jstr p.2)))) = some c := by
  obtain ⟨n, i, b, col⟩ := c
  by_cases h1 : i = "" <;> by_cases h2 : b = "" <;> by_cases h3 : col = "" <;>
    simp [catMembers, catMembersTail, h1, h2, h3, unmarshalCat, List.foldlM,
      assignMember, fieldForKey, setField, Cat.zero]

theorem encodeJString_length (s : String) :
    (encodeJString s).length = (escapeList s.data).length + 2 := by
  simp [encodeJString]

theorem encodeMembers_length (ps : List (String × String)) :
    5 * ps.length ≤ (encodeMembers ps).length := by
  induction ps with
  | nil => simp [encodeMembers]
  | cons p ps ih =>
    obtain ⟨k, v⟩ := p
    cases ps with
    | nil =>
      have hk := encodeJString_length k
      have hv := encodeJString_length v
      have h0 : (encodeMembers ([] : List (String × String))).length = 0 := rfl
      simp only [encodeMembers, List.length_append, List.length_cons, List.length_singleton]
      omega
    | cons q qs =>
      have hk := encodeJString_length k
      have hv := encodeJString_length v
      simp only [encodeMembers, List.length_append, List.length_cons] at ih ⊢
      omega

/-- The JSON round trip on records: `json.Unmarshal` inverts
`json.Marshal` for every `Cat`. -/
theorem decodeCat_encodeCat (c : Cat) : decodeCat (String.mk (encodeCat c)) = some c := by
  have h1 := encodeMembers_length (catMembers c)
  have h2 : (encodeCat c).length = (encodeMembers (catMembers c)).length + 2 := by
    simp [encodeCat]
  have h3 : (catMembers c).length = (catMembersTail c).length + 1 := by simp [catMembers]
  have hlen : 3 * (catMembersTail c).length + 7 ≤ (encodeCat c).length + 1 := by omega
  have hparse : parseValue ((encodeCat c).length + 1) (encodeCat c)
      = some (.jobj ((catMembers c).map (fun p => (p.1, .jstr p.2))), []) := by
    have h := parseValue_encodeCat c [] ((encodeCat c).length + 1) hlen
    simpa using h
  show (match parseValue ((encodeCat c).length + 1) (encodeCat c) with
        | some (v, _) => unmarshalCat v
        | none => none) = some c
  rw [hparse]
  exact unmarshalCat_catMembers c

/-! ## The claims -/

/-- Claim C1: for every valid creation payload P, the create handler
returns 201 with an id that was not previously a key of the store, and a
subsequent get with that id returns 200 with a record equal to P in
`name`, `birthDate` and `color`, with `id` populated to the returned
id. -/
theorem spec_C1 (db : CatMap) (body : String) (P : Cat)
    (h : decodeCat body = some P) :
    (createCat db body).1 = (201, .str (uuidNext db)) ∧
    uuidNext db ∉ listMapKeys db ∧
    getCat (createCat db body).2 (uuidNext db)
      = (200, .record { name := P.name, id := uuidNext db,
                        birthDate := P.birthDate, color := P.color }) := by
  refine ⟨by simp [createCat, createCatWith, h], uuidNext_fresh db, ?_⟩
  have hl : mapLookup (createCat db body).2 (uuidNext db)
      = some { P with id := uuidNext db } := by
    simp [createCat, createCatWith, h, mapLookup_mapInsert_self]
  simp [getCat, hl]

theorem spec_C1_witness :
    decodeCat "\x7b\"name\":\"Tom\",\"birthDate\":\"2020-01-01\",\"color\":\"red\"\x7d"
      = some ⟨"Tom", "", "2020-01-01", "red"⟩ ∧
    (createCat initialCatsDatabase
        "\x7b\"name\":\"Tom\",\"birthDate\":\"2020-01-01\",\"color\":\"red\"\x7d").1
      = (201, .str "id1x") ∧
    "id1x" ∉ listMapKeys initialCatsDatabase ∧
    getCat (createCat initialCatsDatabase
        "\x7b\"name\":\"Tom\",\"birthDate\":\"2020-01-01\",\"color\":\"red\"\x7d").2 "id1x"
      = (200, .record ⟨"Tom", "id1x", "2020-01-01", "red"⟩) := by
  have h := spec_C1 initialCatsDatabase
    "\x7b\"name\":\"Tom\",\"birthDate\":\"2020-01-01\",\"color\":\"red\"\x7d"
    ⟨"Tom", "", "2020-01-01", "red"⟩ rfl
  have hu : uuidNext initialCatsDatabase = "id1x" := rfl
  rw [hu] at h
  exact ⟨rfl, h.1, h.2.1, h.2.2⟩

/-- Claim C2: for every request body whose decoding fails, the create
handler returns 400 with exactly the body "Invalid JSON input" and the
store is left completely unchanged. -/
theorem spec_C2 (db : CatMap) (body : String) (h : decodeCat body = none) :
    createCat db body = ((400, .str "Invalid JSON input"), db) := by
  simp [createCat, createCatWith, h]

theorem spec_C2_witness :
    decodeCat "\x7b invalid json \x7d" = none ∧
    createCat initialCatsDatabase "\x7b invalid json \x7d"
      = ((400, .str "Invalid JSON input"), initialCatsDatabase) :=
  ⟨rfl, spec_C2 initialCatsDatabase "\x7b invalid json \x7d" rfl⟩

/-- Claim C3: deleting a present id returns 204 with an empty body and
removes the key; deleting an absent id returns 404 "Cat not found" and
leaves the store unchanged; hence deleting a once-present id twice
succeeds then misses, and deleting an absent id twice misses twice. -/
theorem spec_C3 (db : CatMap) (id : String) (hnd : (listMapKeys db).Nodup) :
    (mapContains db id = true →
      deleteCat db id = ((204, .empty), mapErase db id) ∧
      id ∉ listMapKeys (deleteCat db id).2 ∧
      deleteCat (deleteCat db id).2 id
        = ((404, .str "Cat not found"), (deleteCat db id).2)) ∧
    (mapContains db id = false →
      deleteCat db id = ((404, .str "Cat not found"), db) ∧
      deleteCat (deleteCat db id).2 id = ((404, .str "Cat not found"), db)) := by
  simp only [listMapKeys_eq] at hnd
  constructor
  · intro hc
    have h1 : deleteCat db id = ((204, .empty), mapErase db id) := by
      simp [deleteCat, hc]
    have h2 : id ∉ (mapErase db id).map Prod.fst := by
      rw [keys_mapErase]
      exact hnd.not_mem_erase
    have h3 : mapContains (mapErase db id) id = false := by
      rw [← Bool.not_eq_true]
      simpa [mapContains_iff] using h2
    refine ⟨h1, by simpa [h1] using h2, ?_⟩
    rw [h1]
    simp [deleteCat, h3]
  · intro hc
    have h1 : deleteCat db id = ((404, .str "Cat not found"), db) := by
      simp [deleteCat, hc]
    exact ⟨h1, by rw [h1]; simp [deleteCat, hc]⟩

theorem spec_C3_witness :
    (listMapKeys initialCatsDatabase).Nodup ∧
    mapContains initialCatsDatabase "id1" = true ∧
    deleteCat initialCatsDatabase "id1" = ((204, .empty), []) ∧
    "id1" ∉ listMapKeys (deleteCat initialCatsDatabase "id1").2 ∧
    deleteCat (deleteCat initialCatsDatabase "id1").2 "id1"
      = ((404, .str "Cat not found"), (deleteCat initialCatsDatabase "id1").2) ∧
    mapContains initialCatsDatabase "missing" = false ∧
    deleteCat initialCatsDatabase "missing"
      = ((404, .str "Cat not found"), initialCatsDatabase) := by
  have hnd : (listMapKeys initialCatsDatabase).Nodup := by decide
  have h := spec_C3 initialCatsDatabase "id1" hnd
  have h' := spec_C3 initialCatsDatabase "missing" hnd
  obtain ⟨ha, hb, hc⟩ := h.1 rfl
  obtain ⟨hd, _⟩ := h'.2 rfl
  exact ⟨hnd, rfl, ha, hb, hc, rfl, hd⟩

/-- Claim C4: any client-supplied id in the creation payload is
discarded: the stored record's id equals the freshly generated
identifier, that identifier is the store key, and the 201 response body
is exactly that identifier as a bare JSON string. -/
theorem spec_C4 (db : CatMap) (body : String) (c : Cat) (h : decodeCat body = some c) :
    createCat db body
      = ((201, .str (uuidNext db)),
          mapInsert db (uuidNext db) { c with id := uuidNext db }) ∧
    mapLookup (createCat db body).2 (uuidNext db) = some { c with id := uuidNext db } ∧
    encodePayload (createCat db body).1.2 = '"' :: escapeList (uuidNext db).data ++ ['"'] ∧
    (∀ f, parseValue (f + 1) (encodePayload (createCat db body).1.2)
        = some (.jstr (uuidNext db), [])) := by
  have h1 : createCat db body
      = ((201, .str (uuidNext db)),
          mapInsert db (uuidNext db) { c with id := uuidNext db }) := by
    simp [createCat, createCatWith, h]
  refine ⟨h1, by simp [h1, mapLookup_mapInsert_self], by rw [h1]; rfl, ?_⟩
  intro f
  rw [h1]
  have := parseValue_jstr f (uuidNext db) []
  simpa [encodePayload] using this

theorem spec_C4_witness :
    decodeCat "\x7b\"name\":\"Z\",\"id\":\"client-chosen\"\x7d"
      = some ⟨"Z", "client-chosen", "", ""⟩ ∧
    createCat initialCatsDatabase "\x7b\"name\":\"Z\",\"id\":\"client-chosen\"\x7d"
      = ((201, .str "id1x"),
          initialCatsDatabase ++ [("id1x", ⟨"Z", "id1x", "", ""⟩)]) ∧
    parseValue 1 (encodePayload (createCat initialCatsDatabase
        "\x7b\"name\":\"Z\",\"id\":\"client-chosen\"\x7d").1.2)
      = some (.jstr "id1x", []) := by
  have h := spec_C4 initialCatsDatabase "\x7b\"name\":\"Z\",\"id\":\"client-chosen\"\x7d"
    ⟨"Z", "client-chosen", "", ""⟩ rfl
  refine ⟨rfl, ?_, ?_⟩
  · rw [h.1]; rfl
  · have h4 := h.2.2.2 0
    rw [show uuidNext initialCatsDatabase = "id1x" from rfl] at h4
    exact h4

/-- Claim C5: the identifier generator never produces a value already
present as a key, so every create inserts under a fresh key, never
overwrites an existing record, and store keys stay duplicate-free for
the lifetime of the process. -/
theorem spec_C5 :
    (∀ db : CatMap, uuidNext db ∉ listMapKeys db) ∧
    (∀ (db : CatMap) (body : String) (c : Cat), decodeCat body = some c →
      listMapKeys (createCat db body).2 = listMapKeys db ++ [uuidNext db] ∧
      (∀ k, k ∈ listMapKeys db → mapLookup (createCat db body).2 k = mapLookup db k)) ∧
    (∀ evs : List Event, (listMapKeys (runEvents initialCatsDatabase evs)).Nodup) := by
  refine ⟨uuidNext_fresh, ?_, ?_⟩
  · intro db body c h
    have hfresh : uuidNext db ∉ db.map Prod.fst := by
      simpa using uuidNext_fresh db
    constructor
    · simp [createCat, createCatWith, h, keys_mapInsert_fresh db _ _ hfresh]
    · intro k hk
      have hne : k ≠ uuidNext db := by
        intro heq
        exact hfresh (by simpa [heq] using hk)
      simp [createCat, createCatWith, h, mapLookup_mapInsert_ne db _ _ _ (Ne.symm hne)]
  · intro evs
    simpa using keys_runEvents_nodup evs initialCatsDatabase (by decide)

theorem spec_C5_witness :
    uuidNext initialCatsDatabase ∉ listMapKeys initialCatsDatabase ∧
    listMapKeys (createCat initialCatsDatabase "\x7b\"name\":\"W\"\x7d").2
      = ["id1", "id1x"] ∧
    mapLookup (createCat initialCatsDatabase "\x7b\"name\":\"W\"\x7d").2 "id1"
      = mapLookup initialCatsDatabase "id1" ∧
    (listMapKeys (runEvents initialCatsDatabase
        [.create "\x7b\"name\":\"W\"\x7d", .delete "id1"])).Nodup := by
  have h := spec_C5
  have h2 := h.2.1 initialCatsDatabase "\x7b\"name\":\"W\"\x7d" ⟨"W", "", "", ""⟩ rfl
  refine ⟨h.1 initialCatsDatabase, ?_, h2.2 "id1" (by decide),
    h.2.2 [.create "\x7b\"name\":\"W\"\x7d", .delete "id1"]⟩
  rw [h2.1]
  rfl

/-- Claim C6 as stated is false on this code (the store is seeded with
"id1", so an empty trace already lists one identifier, not `N − M = 0`):
after zero creates and zero deletes, the list handler returns the
one-element sequence ["id1"]. -/
theorem spec_C6_cex :
    createdIds initialCatsDatabase [] = [] ∧
    countDeletes initialCatsDatabase [] = 0 ∧
    listCats (runEvents initialCatsDatabase []) = (200, .ids ["id1"]) ∧
    (listMapKeys (runEvents initialCatsDatabase [])).length ≠ 0 := by
  refine ⟨rfl, rfl, rfl, by decide⟩

/-- Claim C6 (amended): after N successful creates and M successful
deletes from process start, the list handler returns 200 with exactly
`1 + N − M` identifiers (the seed record counts for the extra one); each
listed identifier is the seed id "id1" or was returned by a create; and
an id deleted at some point and not re-created afterwards is not
listed. -/
theorem spec_C6 (evs : List Event) :
    (listCats (runEvents initialCatsDatabase evs)).1 = 200 ∧
    (listCats (runEvents initialCatsDatabase evs)).2
      = .ids (listMapKeys (runEvents initialCatsDatabase evs)) ∧
    (listMapKeys (runEvents initialCatsDatabase evs)).length
        + countDeletes initialCatsDatabase evs
      = 1 + (createdIds initialCatsDatabase evs).length ∧
    (∀ id ∈ listMapKeys (runEvents initialCatsDatabase evs),
      id = "id1" ∨ id ∈ createdIds initialCatsDatabase evs) ∧
    (∀ id l r, evs = l ++ .delete id :: r →
      id ∉ createdIds (runEvents initialCatsDatabase (l ++ [.delete id])) r →
      id ∉ listMapKeys (runEvents initialCatsDatabase evs)) := by
  refine ⟨rfl, rfl, ?_, ?_, ?_⟩
  · have := size_runEvents evs initialCatsDatabase
    simpa [initialCatsDatabase] using this
  · intro id hid
    have := keys_runEvents_subset evs initialCatsDatabase id (by simpa using hid)
    simpa [initialCatsDatabase] using this
  · intro id l r hsplit hnc
    have hassoc : evs = (l ++ [Event.delete id]) ++ r := by
      rw [hsplit, List.append_assoc]
      rfl
    rw [hassoc, runEvents_append, listMapKeys_eq]
    have hnd : ((runEvents initialCatsDatabase l).map Prod.fst).Nodup :=
      keys_runEvents_nodup l initialCatsDatabase (by decide)
    have habs : id ∉ (runEvents initialCatsDatabase (l ++ [Event.delete id])).map Prod.fst := by
      rw [runEvents_append]
      show id ∉ (stepEvent (runEvents initialCatsDatabase l) (.delete id)).map Prod.fst
      by_cases hc : mapContains (runEvents initialCatsDatabase l) id
      · rw [stepEvent_delete_present _ _ hc]
        exact hnd.not_mem_erase
      · rw [stepEvent_delete_absent _ _ hc]
        intro hmem
        exact hc ((mapContains_iff _ _).mpr hmem)
    exact stays_absent r _ id habs hnc

theorem spec_C6_witness :
    (listMapKeys (runEvents initialCatsDatabase [.delete "id1"])).length
        + countDeletes initialCatsDatabase [.delete "id1"]
      = 1 + (createdIds initialCatsDatabase [.delete "id1"]).length ∧
    "id1" ∉ listMapKeys (runEvents initialCatsDatabase [.delete "id1"]) := by
  refine ⟨(spec_C6 [.delete "id1"]).2.2.1, ?_⟩
  exact (spec_C6 [.delete "id1"]).2.2.2.2 "id1" [] [] rfl (by simp [createdIds])

/-- Claim C7 as stated is false on this code: the seed id "id1" was
never returned by a create operation, yet the get handler answers 200
for it on a fresh store. -/
theorem spec_C7_cex :
    createdIds initialCatsDatabase [] = [] ∧
    getCat (runEvents initialCatsDatabase []) "id1"
      = (200, .record ⟨"Toto", "", "2023-04-16", "Grey"⟩) ∧
    (getCat (runEvents initialCatsDatabase []) "id1").1 ≠ 404 := by
  exact ⟨rfl, rfl, by decide⟩

/-- Claim C7 (amended): for every id that was never returned by a create
operation and is not the seed id "id1", the get handler and the delete
handler both return 404 with the body "Cat not found". -/
theorem spec_C7 (evs : List Event) (id : String)
    (h1 : id ∉ createdIds initialCatsDatabase evs) (h2 : id ≠ "id1") :
    getCat (runEvents initialCatsDatabase evs) id = (404, .str "Cat not found") ∧
    deleteCat (runEvents initialCatsDatabase evs) id
      = ((404, .str "Cat not found"), runEvents initialCatsDatabase evs) := by
  have habs : id ∉ (runEvents initialCatsDatabase evs).map Prod.fst :=
    stays_absent evs initialCatsDatabase id (by simp [initialCatsDatabase, h2]) h1
  have hlook : mapLookup (runEvents initialCatsDatabase evs) id = none :=
    (mapLookup_eq_none_iff _ _).mpr habs
  constructor
  · simp [getCat, hlook]
  · simp [deleteCat, mapContains, hlook]

theorem spec_C7_witness :
    getCat initialCatsDatabase "nope" = (404, .str "Cat not found") ∧
    deleteCat initialCatsDatabase "nope"
      = ((404, .str "Cat not found"), initialCatsDatabase) := by
  have h := spec_C7 [] "nope" (by simp [createdIds]) (by decide)
  simpa [runEvents] using h

/-- Claim C8: encoding a record to JSON and decoding it back yields
field-for-field equality; in the encoded JSON the `name` key is always
present while `id`, `birthDate` and `color` are emitted exactly when
nonempty. -/
theorem spec_C8 (c : Cat) :
    decodeCat (String.mk (encodeCat c)) = some c ∧
    "name" ∈ (catMembers c).map Prod.fst ∧
    ("id" ∈ (catMembers c).map Prod.fst ↔ c.id ≠ "") ∧
    ("birthDate" ∈ (catMembers c).map Prod.fst ↔ c.birthDate ≠ "") ∧
    ("color" ∈ (catMembers c).map Prod.fst ↔ c.color ≠ "") := by
  refine ⟨decodeCat_encodeCat c, ?_, ?_, ?_, ?_⟩ <;>
    by_cases h1 : c.id = "" <;> by_cases h2 : c.birthDate = "" <;>
      by_cases h3 : c.color = "" <;>
      simp [catMembers, catMembersTail, h1, h2, h3]

theorem spec_C8_witness :
    decodeCat (String.mk (encodeCat ⟨"a b\"c", "", "2020-02-02", ""⟩))
      = some ⟨"a b\"c", "", "2020-02-02", ""⟩ ∧
    "birthDate" ∈ (catMembers ⟨"a b\"c", "", "2020-02-02", ""⟩).map Prod.fst ∧
    "id" ∉ (catMembers ⟨"a b\"c", "", "2020-02-02", ""⟩).map Prod.fst := by
  have h := spec_C8 ⟨"a b\"c", "", "2020-02-02", ""⟩
  exact ⟨h.1, h.2.2.2.1.mpr (by decide), fun hm => (h.2.2.1.mp hm) rfl⟩

/-- Claim C9: at process start the store holds exactly the seed record
under key "id1" (name "Toto", color "Grey", birthDate "2023-04-16"), the
first list call returns 200 with exactly ["id1"], and get("id1")
succeeds although "id1" was never returned by a create. -/
theorem spec_C9 :
    initialCatsDatabase = [("id1", ⟨"Toto", "", "2023-04-16", "Grey"⟩)] ∧
    listCats initialCatsDatabase = (200, .ids ["id1"]) ∧
    getCat initialCatsDatabase "id1"
      = (200, .record ⟨"Toto", "", "2023-04-16", "Grey"⟩) ∧
    createdIds initialCatsDatabase [] = [] :=
  ⟨rfl, rfl, rfl, rfl⟩

/-- Claim C10: the create handler decodes only the first JSON value of
the body: if the first value parses and unmarshals into the record
shape, the handler returns 201 whatever bytes follow; it returns 400
"Invalid JSON input" exactly when decoding that first value fails,
including on an empty body. -/
theorem spec_C10 (db : CatMap) (body : String) :
    ((∃ v rest, parseValue (body.data.length + 1) (skipWs body.data) = some (v, rest) ∧
        (unmarshalCat v).isSome) →
      (createCat db body).1.1 = 201) ∧
    (decodeCat body = none ↔ createCat db body = ((400, .str "Invalid JSON input"), db)) ∧
    decodeCat "" = none ∧
    decodeCat "\x7b\"name\":\"A\"\x7d ]]] this is not JSON \x7b"
      = some ⟨"A", "", "", ""⟩ := by
  refine ⟨?_, ?_, rfl, rfl⟩
  · rintro ⟨v, rest, hp, hu⟩
    obtain ⟨c, hc⟩ := Option.isSome_iff_exists.mp hu
    have hd : decodeCat body = some c := by
      unfold decodeCat
      rw [hp]
      exact hc
    simp [createCat, createCatWith, hd]
  · constructor
    · intro hd
      simp [createCat, createCatWith, hd]
    · intro he
      cases hd : decodeCat body with
      | none => rfl
      | some c =>
        have : createCat db body
            = ((201, .str (uuidNext db)),
                mapInsert db (uuidNext db) { c with id := uuidNext db }) := by
          simp [createCat, createCatWith, hd]
        rw [this] at he
        have h201 : (201 : Nat) = 400 := by
          have := congrArg (fun q => q.1.1) he
          simpa using this
        omega

theorem spec_C10_witness :
    (createCat initialCatsDatabase "null junk").1.1 = 201 ∧
    createCat initialCatsDatabase "not json"
      = ((400, .str "Invalid JSON input"), initialCatsDatabase) := by
  refine ⟨(spec_C10 initialCatsDatabase "null junk").1
    ⟨.jnull, " junk".data, rfl, rfl⟩, ?_⟩
  exact ((spec_C10 initialCatsDatabase "not json").2.1).mp rfl

end GolangApp
